import Mathlib

/-!
Verification of the chunking-and-generation pipeline in
`tools/generate_taxonomy_yaml.py`.

The Python source is embedded shallowly: pure string manipulation becomes
Lean functions on `String` (backed by `List Char`), the per-document
`try`/`except` control flow of `process_file` becomes explicit
`Except`-passing, the retry decorator becomes a recursion over attempt
indices, and the semaphore-bounded `asyncio` scheduling becomes a
small-step transition relation on scheduler states.
-/

namespace GenerateTaxonomy

/-- Constant `CHUNK_CHAR_LIMIT = 4000` from the source. -/
def CHUNK_CHAR_LIMIT : Nat := 4000

/-- Accumulator-style model of Python `str.splitlines`: splits at
`"\r\n"`, `"\r"` and `"\n"`, and a trailing terminator does not produce a
trailing empty line (`"a\n".splitlines() == ["a"]`, `"".splitlines() == []`).
`acc` holds the characters of the current line in reverse order; the
`afterCR` flag records that the previous character was `'\r'`, so that an
immediately following `'\n'` is part of the same `"\r\n"` terminator and
does not end a second line. -/
def splitlinesAux (afterCR : Bool) : List Char → List Char → List String
  | [], acc => if acc = [] then [] else [String.mk acc.reverse]
  | c :: rest, acc =>
    if afterCR && c = '\n' then
      splitlinesAux false rest acc
    else if c = '\n' then
      String.mk acc.reverse :: splitlinesAux false rest []
    else if c = '\r' then
      String.mk acc.reverse :: splitlinesAux true rest []
    else
      splitlinesAux false rest (c :: acc)

/-- Python `text.splitlines()`. -/
def pySplitlines (text : String) : List String :=
  splitlinesAux false text.data []

/-- Python `"\n".join(lines)`. -/
def joinNL : List String → String
  | [] => ""
  | [x] => x
  | x :: xs => x ++ "\n" ++ joinNL xs

/-- Loop body of `chunk_text`: iterates the remaining lines carrying the
accumulated `parts`, the pending group `current` and the running count
`total`, exactly as the Python `for` loop does (the seal test
`total + line_len > limit` runs before the line is appended, and sealing
does not test whether `current` is empty). -/
def chunkLoop (limit : Nat) : List String → List String → List String → Nat → List String
  | [], parts, current, _ =>
    if current = [] then parts else parts ++ [joinNL current]
  | line :: rest, parts, current, total =>
    if total + line.length > limit then
      chunkLoop limit rest (parts ++ [joinNL current]) [line] line.length
    else
      chunkLoop limit rest parts (current ++ [line]) (total + line.length)

/-- `chunk_text(text, limit=CHUNK_CHAR_LIMIT)` from the source. -/
def chunk_text (text : String) (limit : Nat := CHUNK_CHAR_LIMIT) : List String :=
  chunkLoop limit (pySplitlines text) [] [] 0

/-! ### Basic lemmas about `joinNL` and `chunkLoop` -/

theorem joinNL_cons_cons (x y : String) (l : List String) :
    joinNL (x :: y :: l) = x ++ "\n" ++ joinNL (y :: l) := rfl

theorem joinNL_append (xs : List String) : ∀ ys, xs ≠ [] → ys ≠ [] →
    joinNL (xs ++ ys) = joinNL xs ++ "\n" ++ joinNL ys := by
  induction xs with
  | nil => intro ys hx hy; exact absurd rfl hx
  | cons x xs ih =>
    intro ys hx hy
    cases xs with
    | nil =>
      cases ys with
      | nil => exact absurd rfl hy
      | cons y ys => rfl
    | cons x2 xs2 =>
      have h := ih ys (by simp) hy
      calc joinNL ((x :: x2 :: xs2) ++ ys)
          = x ++ "\n" ++ joinNL ((x2 :: xs2) ++ ys) := rfl
        _ = x ++ "\n" ++ (joinNL (x2 :: xs2) ++ "\n" ++ joinNL ys) := by rw [h]
        _ = joinNL (x :: x2 :: xs2) ++ "\n" ++ joinNL ys := by
            rw [joinNL_cons_cons]; simp [String.append_assoc]

theorem chunkLoop_parts_append (limit : Nat) (lines : List String) :
    ∀ p q current total,
      chunkLoop limit lines (p ++ q) current total
        = p ++ chunkLoop limit lines q current total := by
  induction lines with
  | nil =>
    intro p q current total
    simp only [chunkLoop]
    by_cases h : current = [] <;> simp [h]
  | cons line rest ih =>
    intro p q current total
    simp only [chunkLoop]
    by_cases h : total + line.length > limit
    · simp only [if_pos h]
      rw [List.append_assoc, ih]
    · simp only [if_neg h, ih]

theorem chunkLoop_parts_acc (limit : Nat) (lines parts current : List String) (total : Nat) :
    chunkLoop limit lines parts current total
      = parts ++ chunkLoop limit lines [] current total := by
  have h := chunkLoop_parts_append limit lines parts [] current total
  simpa using h

theorem chunkLoop_ne_nil (limit : Nat) (lines : List String) :
    ∀ parts current total, current ≠ [] →
      chunkLoop limit lines parts current total ≠ [] := by
  induction lines with
  | nil => intro parts current total h; simp [chunkLoop, h]
  | cons line rest ih =>
    intro parts current total h
    simp only [chunkLoop]
    by_cases hc : total + line.length > limit
    · simp only [if_pos hc]; exact ih _ _ _ (by simp)
    · simp only [if_neg hc]; exact ih _ _ _ (by simp)

theorem chunkLoop_joinNL (limit : Nat) (lines : List String) :
    ∀ current total, current ≠ [] →
      joinNL (chunkLoop limit lines [] current total) = joinNL (current ++ lines) := by
  induction lines with
  | nil =>
    intro current total h
    simp [chunkLoop, h, joinNL]
  | cons line rest ih =>
    intro current total h
    simp only [chunkLoop]
    by_cases hc : total + line.length > limit
    · simp only [if_pos hc, List.nil_append]
      rw [chunkLoop_parts_acc limit rest [joinNL current] [line] line.length]
      rw [joinNL_append [joinNL current] _ (by simp)
          (chunkLoop_ne_nil _ _ _ _ _ (by simp))]
      rw [ih [line] line.length (by simp)]
      rw [joinNL_append current (line :: rest) h (by simp)]
      simp [joinNL]
    · simp only [if_neg hc]
      rw [ih (current ++ [line]) _ (by simp)]
      simp

end GenerateTaxonomy

namespace GenerateTaxonomy

/-! ### C1: chunk coverage -/

/-- C1 (amended): for input text `T` that is exactly the newline-join of its
`splitlines` decomposition (single `'\n'` separators, no trailing
terminator) and whose first line is no longer than the limit `L`,
concatenating the chunks of `chunk_text T L` joined by `"\n"`
reconstructs `T` exactly. -/
theorem chunk_text_coverage (T : String) (L : Nat) (hL : 0 < L)
    (hnorm : T = joinNL (pySplitlines T))
    (hhead : ((pySplitlines T).head?.map String.length).getD 0 ≤ L) :
    joinNL (chunk_text T L) = T := by
  unfold chunk_text
  cases hls : pySplitlines T with
  | nil =>
    rw [hls] at hnorm
    simpa [chunkLoop, joinNL] using hnorm.symm
  | cons l rest =>
    rw [hls] at hnorm hhead
    simp only [List.head?, Option.map, Option.getD] at hhead
    simp only [chunkLoop]
    have hc : ¬ (0 + l.length > L) := by omega
    rw [if_neg hc]
    simp only [List.nil_append]
    rw [chunkLoop_joinNL L rest [l] (0 + l.length) (by simp)]
    simpa using hnorm.symm

/-- C1 counterexample: for the text `"a\n"` (a single line with a trailing
newline) and limit `5 > 0`, the chunks of `chunk_text` joined by `"\n"`
give `"a"`, not the original text — the claimed reconstruction fails. -/
theorem chunk_text_coverage_counterexample :
    0 < 5 ∧ joinNL (chunk_text "a\n" 5) ≠ "a\n" := by
  exact ⟨by decide, by decide⟩

/-- Witness for `chunk_text_coverage` at `T = "x\ny"`, `L = 5`. -/
theorem chunk_text_coverage_witness :
    0 < 5 ∧ "x\ny" = joinNL (pySplitlines "x\ny")
      ∧ ((pySplitlines "x\ny").head?.map String.length).getD 0 ≤ 5
      ∧ joinNL (chunk_text "x\ny" 5) = "x\ny" :=
  ⟨by decide, by decide, by decide,
    chunk_text_coverage "x\ny" 5 (by decide) (by decide) (by decide)⟩

/-! ### C2: chunk bound -/

/-- Combined length of the lines of a pending group, newline separators
excluded; this is the quantity the Python variable `total` tracks. -/
def sumLen (g : List String) : Nat := (g.map String.length).sum

theorem joinNL_length (g : List String) (hg : g ≠ []) :
    (joinNL g).length + 1 = sumLen g + g.length := by
  induction g with
  | nil => cases hg rfl
  | cons x xs ih =>
    cases xs with
    | nil => simp [joinNL, sumLen]
    | cons y ys =>
      have h := ih (by simp)
      rw [joinNL_cons_cons]
      simp only [String.length_append, sumLen, List.map_cons, List.sum_cons,
        List.length_cons] at h ⊢
      have hnl : ("\n" : String).length = 1 := rfl
      omega

theorem joinNL_count_nl (g : List String) (hg : g ≠ [])
    (hclean : ∀ l ∈ g, '\n' ∉ l.data) :
    (joinNL g).data.count '\n' + 1 = g.length := by
  induction g with
  | nil => cases hg rfl
  | cons x xs ih =>
    cases xs with
    | nil =>
      have hx : x.data.count '\n' = 0 :=
        List.count_eq_zero.mpr (hclean x (by simp))
      simp [joinNL, hx]
    | cons y ys =>
      have h := ih (by simp) (fun l hl => hclean l (by simp [hl]))
      rw [joinNL_cons_cons, String.data_append, String.data_append]
      simp only [List.count_append, List.length_cons] at h ⊢
      have hx : x.data.count '\n' = 0 :=
        List.count_eq_zero.mpr (hclean x (by simp))
      have hnl : List.count '\n' (['\n'] : List Char) = 1 := rfl
      omega

theorem splitlinesAux_clean (l : List Char) :
    ∀ (afterCR : Bool) (acc : List Char), '\n' ∉ acc →
      ∀ s ∈ splitlinesAux afterCR l acc, '\n' ∉ s.data := by
  induction l with
  | nil =>
    intro afterCR acc hacc s hs
    by_cases h : acc = []
    · simp [splitlinesAux, h] at hs
    · simp only [splitlinesAux, if_neg h, List.mem_singleton] at hs
      subst hs
      simpa using hacc
  | cons c rest ih =>
    intro afterCR acc hacc s hs
    simp only [splitlinesAux] at hs
    by_cases h1 : afterCR && c = '\n'
    · rw [if_pos h1] at hs
      exact ih false acc hacc s hs
    · rw [if_neg h1] at hs
      by_cases h2 : c = '\n'
      · rw [if_pos h2] at hs
        rcases List.mem_cons.mp hs with h | h
        · subst h; simpa using hacc
        · exact ih false [] (by simp) s h
      · rw [if_neg h2] at hs
        by_cases h3 : c = '\r'
        · rw [if_pos h3] at hs
          rcases List.mem_cons.mp hs with h | h
          · subst h; simpa using hacc
          · exact ih true [] (by simp) s h
        · rw [if_neg h3] at hs
          refine ih false (c :: acc) ?_ s hs
          simp only [List.mem_cons, not_or]
          exact ⟨fun h => h2 h.symm, hacc⟩

theorem chunkOk_of_group (L : Nat) (g : List String)
    (hclean : ∀ l ∈ g, '\n' ∉ l.data)
    (hinv : sumLen g ≤ L ∨ ∃ l, g = [l] ∧ L < l.length) :
    (joinNL g).length ≤ L + (joinNL g).data.count '\n'
      ∨ ((joinNL g).data.count '\n' = 0 ∧ L < (joinNL g).length) := by
  rcases hinv with h | ⟨l, rfl, hl⟩
  · by_cases hg : g = []
    · subst hg; left; simp [joinNL]
    · left
      have h1 := joinNL_length g hg
      have h2 := joinNL_count_nl g hg hclean
      omega
  · right
    have hj : joinNL [l] = l := rfl
    rw [hj]
    exact ⟨List.count_eq_zero.mpr (hclean l (by simp)), hl⟩

theorem chunkLoop_bound (L : Nat) (lines : List String) :
    ∀ parts current total,
      (∀ l ∈ lines, '\n' ∉ l.data) →
      (∀ l ∈ current, '\n' ∉ l.data) →
      total = sumLen current →
      (sumLen current ≤ L ∨ ∃ l, current = [l] ∧ L < l.length) →
      (∀ c ∈ parts,
        c.length ≤ L + c.data.count '\n' ∨ (c.data.count '\n' = 0 ∧ L < c.length)) →
      ∀ c ∈ chunkLoop L lines parts current total,
        c.length ≤ L + c.data.count '\n' ∨ (c.data.count '\n' = 0 ∧ L < c.length) := by
  induction lines with
  | nil =>
    intro parts current total _ hcur _ hinv hparts c hc
    simp only [chunkLoop] at hc
    by_cases h : current = []
    · rw [if_pos h] at hc; exact hparts c hc
    · rw [if_neg h] at hc
      rcases List.mem_append.mp hc with h1 | h1
      · exact hparts c h1
      · simp only [List.mem_singleton] at h1; subst h1
        exact chunkOk_of_group L current hcur hinv
  | cons line rest ih =>
    intro parts current total hlines hcur htot hinv hparts c hc
    simp only [chunkLoop] at hc
    have hline : '\n' ∉ line.data := hlines line (by simp)
    have hrest : ∀ l ∈ rest, '\n' ∉ l.data := fun l hl => hlines l (by simp [hl])
    by_cases h : total + line.length > L
    · rw [if_pos h] at hc
      refine ih _ _ _ hrest ?_ ?_ ?_ ?_ c hc
      · intro l hl; simp only [List.mem_singleton] at hl; subst hl; exact hline
      · simp [sumLen]
      · rcases le_or_lt line.length L with h2 | h2
        · left; simpa [sumLen] using h2
        · right; exact ⟨line, rfl, h2⟩
      · intro c2 hc2
        rcases List.mem_append.mp hc2 with h1 | h1
        · exact hparts c2 h1
        · simp only [List.mem_singleton] at h1; subst h1
          exact chunkOk_of_group L current hcur hinv
    · rw [if_neg h] at hc
      refine ih _ _ _ hrest ?_ ?_ ?_ hparts c hc
      · intro l hl
        rcases List.mem_append.mp hl with h1 | h1
        · exact hcur l h1
        · simp only [List.mem_singleton] at h1; subst h1; exact hline
      · simp [sumLen, htot]
      · left
        have hs : sumLen (current ++ [line]) = total + line.length := by
          simp [sumLen, htot]
        omega

/-- C2 (amended): every chunk produced by `chunk_text` with limit `L` has
length at most `L` plus the number of newline separators inside the chunk
(equivalently, the combined length of the chunk's lines, separators
excluded, is at most `L`), except when the chunk is a single line (no
newline inside) whose own length exceeds `L`. -/
theorem chunk_text_bound (T : String) (L : Nat) (hL : 0 < L) :
    ∀ c ∈ chunk_text T L,
      c.length ≤ L + c.data.count '\n' ∨ (c.data.count '\n' = 0 ∧ L < c.length) := by
  intro c hc
  refine chunkLoop_bound L (pySplitlines T) [] [] 0 ?_ ?_ rfl ?_ ?_ c hc
  · exact fun l hl => splitlinesAux_clean T.data false [] (by simp) l hl
  · simp
  · left; simp [sumLen]
  · simp

/-- C2 counterexample: for the text `"ab\ncd"` and limit `4 > 0`,
`chunk_text` returns the single chunk `"ab\ncd"` of length `5 > 4`, and
that chunk consists of two source lines (each of length `≤ 4`), so the
claimed exception (a single over-long source line) does not apply. -/
theorem chunk_text_bound_counterexample :
    0 < 4 ∧ chunk_text "ab\ncd" 4 = ["ab\ncd"]
      ∧ 4 < ("ab\ncd" : String).length
      ∧ pySplitlines "ab\ncd" = ["ab", "cd"]
      ∧ ("ab" : String).length ≤ 4 ∧ ("cd" : String).length ≤ 4 := by
  exact ⟨by decide, by decide, by decide, by decide, by decide, by decide⟩

/-- Witness for `chunk_text_bound` at `T = "ab\ncd"`, `L = 4`. -/
theorem chunk_text_bound_witness :
    0 < 4 ∧ "ab\ncd" ∈ chunk_text "ab\ncd" 4
      ∧ (("ab\ncd" : String).length ≤ 4 + ("ab\ncd" : String).data.count '\n'
        ∨ (("ab\ncd" : String).data.count '\n' = 0 ∧ 4 < ("ab\ncd" : String).length)) :=
  ⟨by decide, by decide, chunk_text_bound "ab\ncd" 4 (by decide) "ab\ncd" (by decide)⟩

/-! ### C4: the seal is not guarded by non-emptiness of the pending group -/

/-- C4: evaluating `chunk_text` on a first line longer than the limit.
The Python seal test `total + line_len > limit` carries no
`and current` conjunct, so on the text `"aaaaa"` with limit `4` the empty
pending group is sealed into an empty first chunk before the over-long
line, contradicting the specified guard ("seal ... AND the pending group
is non-empty") and the specified output (a single one-line chunk). -/
theorem chunk_text_empty_first_chunk :
    chunk_text "aaaaa" 4 = ["", "aaaaa"] ∧ "" ∈ chunk_text "aaaaa" 4 := by
  exact ⟨by decide, by decide⟩

/-! ### C7: the 3 x 1500-character scenario -/

/-- First scenario line: 1500 repetitions of `'a'`. -/
def lineA : String := String.mk (List.replicate 1500 'a')

/-- Second scenario line: 1500 repetitions of `'b'`. -/
def lineB : String := String.mk (List.replicate 1500 'b')

/-- Third scenario line: 1500 repetitions of `'c'`. -/
def lineC : String := String.mk (List.replicate 1500 'c')

theorem splitlinesAux_clean_segment (xs : List Char) :
    ∀ rest acc, (∀ ch ∈ xs, ch ≠ '\n' ∧ ch ≠ '\r') →
      splitlinesAux false (xs ++ rest) acc = splitlinesAux false rest (xs.reverse ++ acc) := by
  induction xs with
  | nil => intro rest acc _; simp
  | cons c cs ih =>
    intro rest acc h
    have hc := h c (by simp)
    have hrest : ∀ ch ∈ cs, ch ≠ '\n' ∧ ch ≠ '\r' := fun ch hch => h ch (by simp [hch])
    simp only [List.cons_append, splitlinesAux, Bool.false_and, Bool.false_eq_true,
      if_false, hc.1, hc.2]
    show splitlinesAux false (cs ++ rest) (c :: acc)
        = splitlinesAux false rest ((c :: cs).reverse ++ acc)
    rw [ih rest (c :: acc) hrest]
    simp [List.append_assoc]

theorem splitlinesAux_nl (rest acc : List Char) :
    splitlinesAux false ('\n' :: rest) acc
      = String.mk acc.reverse :: splitlinesAux false rest [] := by
  simp [splitlinesAux]

theorem pySplitlines_three :
    pySplitlines (lineA ++ "\n" ++ lineB ++ "\n" ++ lineC) = [lineA, lineB, lineC] := by
  have ha : ∀ ch ∈ List.replicate 1500 'a', ch ≠ '\n' ∧ ch ≠ '\r' := by
    intro ch hch
    rcases List.eq_of_mem_replicate hch with rfl
    exact ⟨by decide, by decide⟩
  have hb : ∀ ch ∈ List.replicate 1500 'b', ch ≠ '\n' ∧ ch ≠ '\r' := by
    intro ch hch
    rcases List.eq_of_mem_replicate hch with rfl
    exact ⟨by decide, by decide⟩
  have hc : ∀ ch ∈ List.replicate 1500 'c', ch ≠ '\n' ∧ ch ≠ '\r' := by
    intro ch hch
    rcases List.eq_of_mem_replicate hch with rfl
    exact ⟨by decide, by decide⟩
  show splitlinesAux false (lineA ++ "\n" ++ lineB ++ "\n" ++ lineC).data [] = _
  have hdata : (lineA ++ "\n" ++ lineB ++ "\n" ++ lineC).data
      = List.replicate 1500 'a'
        ++ ('\n' :: (List.replicate 1500 'b' ++ ('\n' :: List.replicate 1500 'c'))) := by
    rw [String.data_append, String.data_append, String.data_append, String.data_append]
    show (((List.replicate 1500 'a' ++ ['\n']) ++ List.replicate 1500 'b') ++ ['\n'])
        ++ List.replicate 1500 'c' = _
    simp only [List.append_assoc, List.singleton_append]
    rfl
  rw [hdata]
  rw [splitlinesAux_clean_segment _ _ _ ha, splitlinesAux_nl]
  rw [splitlinesAux_clean_segment _ _ _ hb, splitlinesAux_nl]
  have hfin := splitlinesAux_clean_segment (List.replicate 1500 'c') [] [] hc
  rw [List.append_nil] at hfin
  rw [hfin]
  simp only [List.append_nil, List.reverse_reverse]
  have hne : (List.replicate 1500 'c').reverse ≠ ([] : List Char) := by
    intro h
    have hlen := congrArg List.length h
    simp only [List.length_reverse, List.length_replicate, List.length_nil] at hlen
    omega
  simp only [splitlinesAux]
  rw [if_neg hne, List.reverse_reverse]
  rfl

theorem chunkLoop_step_no_seal (limit : Nat) (line : String)
    (rest parts current : List String) (total : Nat)
    (h : ¬ total + line.length > limit) :
    chunkLoop limit (line :: rest) parts current total
      = chunkLoop limit rest parts (current ++ [line]) (total + line.length) := by
  simp only [chunkLoop, if_neg h]

theorem chunkLoop_step_seal (limit : Nat) (line : String)
    (rest parts current : List String) (total : Nat)
    (h : total + line.length > limit) :
    chunkLoop limit (line :: rest) parts current total
      = chunkLoop limit rest (parts ++ [joinNL current]) [line] line.length := by
  simp only [chunkLoop, if_pos h]

/-- C7: on the input text made of three lines of 1500 characters each,
with limit 4000, `chunk_text` returns exactly two chunks: the first joins
lines 1 and 2, the second is line 3 alone. -/
theorem chunk_text_three_lines :
    chunk_text (lineA ++ "\n" ++ lineB ++ "\n" ++ lineC) 4000
      = [lineA ++ "\n" ++ lineB, lineC] := by
  have hA : lineA.length = 1500 := by
    show (List.replicate 1500 'a').length = 1500
    rw [List.length_replicate]
  have hB : lineB.length = 1500 := by
    show (List.replicate 1500 'b').length = 1500
    rw [List.length_replicate]
  have hC : lineC.length = 1500 := by
    show (List.replicate 1500 'c').length = 1500
    rw [List.length_replicate]
  unfold chunk_text
  rw [pySplitlines_three]
  rw [chunkLoop_step_no_seal _ _ _ _ _ _ (by rw [hA]; omega)]
  rw [chunkLoop_step_no_seal _ _ _ _ _ _ (by rw [hA, hB]; omega)]
  rw [chunkLoop_step_seal _ _ _ _ _ _ (by rw [hA, hB, hC]; omega)]
  simp only [chunkLoop]
  rw [if_neg (by simp)]
  simp [joinNL]

/-! ### Prompt generation (`generate_prompt` and the system prompt constants) -/

/-- Constant `SYSTEM_PROMPT_KNOWLEDGE` from the source. -/
def SYSTEM_PROMPT_KNOWLEDGE : String :=
  "You are an expert assistant that creates high-quality InstructLab-compatible knowledge YAML files (qna.yaml).\nUse schema version 3 and follow this format:\n- version: 3\n- domain: \"science/radiology\" (as an example)\n- created_by: GitHub username or author\n- document_outline: 1-line description of document\n- seed_examples:\n  - context: snippet from document\n    questions_and_answers:\n      - question: detailed and grounded\n        answer: well-formed detailed factual answer\nReturn only valid YAML, no commentary or explanation.\n"

/-- Constant `SYSTEM_PROMPT_SKILL` from the source. -/
def SYSTEM_PROMPT_SKILL : String :=
  "You are an expert assistant that creates high-quality InstructLab-compatible compositional skill YAML files (qna.yaml).\nUse schema version 3 and follow this format:\n- version: 3\n- task_description: what the skill teaches the model (e.g. \"Convert camelCase to snake_case\")\n- created_by: GitHub username or author\n- seed_examples: list of question-answer pairs\nIf skill is grounded, include context. Return only valid YAML.\n"

/-- Relevant fields of the parsed command-line arguments `args`. -/
structure Args where
  provider : String
  model : String
  output_dir : String
  mode : String
  domain : String
  created_by : String
  task : Option String
  grounded : Bool
  max_tokens : Nat
deriving DecidableEq

/-- Python `args.task or 'Unnamed'`: both `None` and the empty string are
falsy, so both fall back to the placeholder. -/
def taskOrUnnamed (task : Option String) : String :=
  match task with
  | none => "Unnamed"
  | some t => if t = "" then "Unnamed" else t

/-- The f-string built by the `mode == "knowledge"` branch of
`generate_prompt`. -/
def knowledge_prompt (chunk : String) (args : Args) : String :=
  SYSTEM_PROMPT_KNOWLEDGE ++ "\n\nDomain: " ++ args.domain
    ++ "\nCreated By: " ++ args.created_by ++ "\n\n---\n" ++ chunk ++ "\n"

/-- The f-string built by the `mode == "skill"` branch of
`generate_prompt`. -/
def skill_prompt (chunk : String) (args : Args) : String :=
  SYSTEM_PROMPT_SKILL ++ "\n\nSkill Type: "
    ++ (if args.grounded then "grounded" else "ungrounded")
    ++ "\nCreated By: " ++ args.created_by
    ++ "\nTask: " ++ taskOrUnnamed args.task ++ "\n\n---\n" ++ chunk ++ "\n"

/-- `generate_prompt(mode, chunk, args)` from the source; the trailing
`raise ValueError("Invalid mode")` becomes the `Except.error` branch. -/
def generate_prompt (mode chunk : String) (args : Args) : Except String String :=
  if mode = "knowledge" then .ok (knowledge_prompt chunk args)
  else if mode = "skill" then .ok (skill_prompt chunk args)
  else .error "Invalid mode"

/-! ### C10: the knowledge prompt ignores the skill-only options -/

/-- C10: for any chunk and any two argument records that agree on `domain`
and `created_by`, `generate_prompt` in knowledge mode returns identical
prompts — the knowledge branch reads neither `grounded` nor `task`. -/
theorem knowledge_prompt_ignores_skill_options (chunk : String) (a1 a2 : Args)
    (hd : a1.domain = a2.domain) (hc : a1.created_by = a2.created_by) :
    generate_prompt "knowledge" chunk a1 = generate_prompt "knowledge" chunk a2 := by
  simp [generate_prompt, knowledge_prompt, hd, hc]

/-- Witness for `knowledge_prompt_ignores_skill_options` at two argument
records that differ in `grounded`, `task`, `model` and `provider` but
agree on `domain` and `created_by`. -/
theorem knowledge_prompt_ignores_skill_options_witness :
    let a1 : Args := ⟨"ollama", "m1", "out", "knowledge", "dom", "user", none, false, 8000⟩
    let a2 : Args := ⟨"openai", "m2", "out", "knowledge", "dom", "user", some "t", true, 4000⟩
    generate_prompt "knowledge" "chunk" a1 = generate_prompt "knowledge" "chunk" a2
      ∧ a1.grounded ≠ a2.grounded ∧ a1.task ≠ a2.task :=
  ⟨knowledge_prompt_ignores_skill_options "chunk" _ _ rfl rfl, by decide, by decide⟩

/-! ### C8: output path determinism and overwrite semantics -/

/-- Output path computed by `process_file`:
`Path(args.output_dir) / args.mode / args.domain / subname / "qna.yaml"`
with `subname = slugify(file_path.stem) + "-part-" + str(i+1)`, where `i`
is the 0-based loop index. Paths are modelled as component lists; the
slug of the document stem is taken as given (`slugify` is an external
library, out of scope). -/
def code_out_path (output_dir mode domain slug : String) (i : Nat) : List String :=
  [output_dir, mode, domain, slug ++ "-part-" ++ toString (i + 1), "qna.yaml"]

/-- Path of the provenance sidecar written by `write_attribution` next to
the chunk's `qna.yaml` (same directory, file `attribution.txt`). -/
def attribution_path (output_dir mode domain slug : String) (i : Nat) : List String :=
  [output_dir, mode, domain, slug ++ "-part-" ++ toString (i + 1), "attribution.txt"]

/-- Modelled from the spec: the destination-path formula of the Artifact
Writer, `output_root / mode / domain / "<slug>-part-<chunk-index>" /
"qna.yaml"` with a 1-based chunk index, for comparison with
`code_out_path`. -/
def spec_out_path (output_root mode domain slug : String) (chunkIndex : Nat) : List String :=
  [output_root, mode, domain, slug ++ "-part-" ++ toString chunkIndex, "qna.yaml"]

/-- Filesystem as a map from paths to file contents;
`write_file` (`path.write_text`) replaces whatever was at the path. -/
def write_fs (fs : List String → Option String) (p : List String) (content : String) :
    List String → Option String :=
  fun q => if q = p then some content else fs q

/-- C8: the path `process_file` writes to is exactly the spec formula at
the 1-based index `i + 1`, for every tuple (so equal tuples give equal
paths), and writing twice to one path leaves a single artifact holding
the second content — an overwrite, not a duplicate. -/
theorem out_path_deterministic_and_overwrites :
    (∀ root mode domain slug i,
      code_out_path root mode domain slug i = spec_out_path root mode domain slug (i + 1))
      ∧ (∀ (fs : List String → Option String) p c1 c2,
        write_fs (write_fs fs p c1) p c2 = write_fs fs p c2) := by
  constructor
  · intro root mode domain slug i; rfl
  · intro fs p c1 c2
    funext q
    by_cases h : q = p <;> simp [write_fs, h]

/-! ### The `process_file` model (C3 and C9)

The generation backend (`call_model`, i.e. the HTTP round trip of
`call_openai` / `call_ollama` selected by `args.provider`) is abstracted
as a function `backend : prompt → model → Except error output`. The
`async with semaphore` admission and the interleaving of several
`process_file` tasks are modelled separately for C5; here one document is
processed in isolation, which is faithful because a `process_file` task
holds the semaphore for its whole body and its effects touch only paths
derived from its own file. -/

deriving instance DecidableEq for Except

/-- One input document as `process_file` sees it: the file name
(`file_path.name`), the slugified stem (`slugify(file_path.stem)`,
slugification itself being an external library), the resolved absolute
path (`file_path.resolve()`), and the outcome of `read_file`
(`Except.error` when reading raises). -/
structure FileJob where
  name : String
  stem_slug : String
  resolved : String
  content : Except String String
deriving DecidableEq

/-- Content written by `write_attribution`. -/
def attribution_text (fj : FileJob) : String :=
  "Source: " ++ fj.name ++ "\nPath: " ++ fj.resolved ++ "\nLicense: Unknown"

/-- One `logging.error` line emitted by the `except` handler of
`process_file`: the document name, the 1-based chunk index interpolated
as `i+1`, and the error message. -/
structure ErrLog where
  doc : String
  chunkIndex : Nat
  msg : String
deriving DecidableEq

/-- Observable effects of one `process_file` call: the `(path, content)`
writes performed, in order, and the error log lines. -/
structure PFState where
  writes : List (List String × String)
  errors : List ErrLog
deriving DecidableEq

/-- Python exceptions raised by the handler itself; referencing the loop
variable `i` when no loop iteration has bound it raises `NameError`. -/
inductive PyError where
  | nameError
deriving DecidableEq

/-- The two writes of one successful chunk iteration: `qna.yaml` with the
backend output, then `attribution.txt` with the provenance text. -/
def chunkArtifacts (args : Args) (fj : FileJob) (i : Nat) (output : String) :
    List (List String × String) :=
  [(code_out_path args.output_dir args.mode args.domain fj.stem_slug i, output),
   (attribution_path args.output_dir args.mode args.domain fj.stem_slug i,
     attribution_text fj)]

/-- The `for i, chunk in enumerate(chunks)` loop of `process_file`. A
raised exception (`Except.error`) carries the Python error, the value of
the loop variable `i` at raise time (`some i`; `none` would mean the loop
never ran), and the effects performed so far — the exception aborts the
loop, so the remaining chunks are not visited. -/
def chunkJobsLoop (backend : String → String → Except String String)
    (args : Args) (fj : FileJob) :
    List String → Nat → PFState → Except (String × Option Nat × PFState) PFState
  | [], _, st => .ok st
  | chunk :: rest, i, st =>
    match generate_prompt args.mode chunk args with
    | .error e => .error (e, some i, st)
    | .ok prompt =>
      match backend prompt args.model with
      | .error e => .error (e, some i, st)
      | .ok output =>
        chunkJobsLoop backend args fj rest (i + 1)
          { st with writes := st.writes ++ chunkArtifacts args fj i output }

/-- Body of the `try` block of `process_file`: read the file, chunk it
with limit `args.max_tokens * 4`, run the chunk loop. A read failure
raises before the loop, so the loop variable is still unbound (`none`). -/
def tryBody (backend : String → String → Except String String)
    (args : Args) (fj : FileJob) :
    Except (String × Option Nat × PFState) PFState :=
  match fj.content with
  | .error e => .error (e, none, ⟨[], []⟩)
  | .ok content =>
    chunkJobsLoop backend args fj (chunk_text content (args.max_tokens * 4)) 0 ⟨[], []⟩

/-- The `except Exception as e` handler of `process_file`: it formats
`f"... {file_path.name} chunk {i+1}: {e}"`. Modelled from Python
name-resolution semantics: when the loop variable `i` was never bound
(the exception was raised before the first iteration), evaluating `i+1`
in the handler raises `NameError`, which escapes `process_file`;
otherwise the handler logs and swallows the exception. -/
def exceptHandler (fj : FileJob) :
    String × Option Nat × PFState → Except PyError PFState
  | (e, some i, st) => .ok { st with errors := st.errors ++ [⟨fj.name, i + 1, e⟩] }
  | (_, none, _) => .error .nameError

/-- `process_file(file_path, args, semaphore)` from the source, one
document's whole processing inside its `try`/`except`. -/
def process_file (backend : String → String → Except String String)
    (args : Args) (fj : FileJob) : Except PyError PFState :=
  match tryBody backend args fj with
  | .ok st => .ok st
  | .error info => exceptHandler fj info

/-- The batch of `main`: one `process_file` task per discovered file
(`asyncio.gather(*(process_file(f, args, sem) for f in files))`). -/
def runBatch (backend : String → String → Except String String)
    (args : Args) (fjs : List FileJob) : List (Except PyError PFState) :=
  fjs.map (process_file backend args)

/-- Writes accumulated by the successful prefix of the chunk loop:
chunk `i` through chunk `i + k - 1`, each contributing its `qna.yaml`
(backend output `g j` for chunk `j`) and its `attribution.txt`. -/
def artifactsFor (args : Args) (fj : FileJob) (g : Nat → String) :
    Nat → Nat → List (List String × String)
  | _, 0 => []
  | i, k + 1 => chunkArtifacts args fj i (g i) ++ artifactsFor args fj g (i + 1) k

/-! ### C9: a pre-loop failure makes the handler itself raise -/

/-- C9: when reading the document fails (`read_file` raises inside the
`try` block, before the `for` loop has bound `i`), the `except` handler
evaluates `i+1` with `i` unbound, so `process_file` raises `NameError`
instead of logging the original failure with a chunk index. -/
theorem process_file_read_failure_name_error
    (backend : String → String → Except String String) (args : Args)
    (fj : FileJob) (e : String) (h : fj.content = .error e) :
    process_file backend args fj = .error PyError.nameError := by
  simp [process_file, tryBody, h, exceptHandler]

/-- Witness for `process_file_read_failure_name_error` on a concrete
document whose read fails. -/
theorem process_file_read_failure_name_error_witness :
    (FileJob.mk "doc.md" "doc" "/abs/doc.md" (.error "boom")).content = .error "boom"
      ∧ process_file (fun _ _ => .ok "out")
          ⟨"ollama", "m", "out", "knowledge", "d", "u", none, false, 8000⟩
          ⟨"doc.md", "doc", "/abs/doc.md", .error "boom"⟩
        = .error PyError.nameError :=
  ⟨rfl, process_file_read_failure_name_error _ _ _ "boom" rfl⟩

/-! ### C3: failure containment at the document boundary -/

theorem chunkJobsLoop_fail_spec
    (backend : String → String → Except String String) (args : Args) (fj : FileJob)
    (hmode : args.mode = "knowledge")
    (bad : String) (post : List String) (e : String) (g : Nat → String)
    (hbad : backend (knowledge_prompt bad args) args.model = .error e) :
    ∀ (pre : List String) (i : Nat) (st : PFState),
      (∀ j (hj : j < pre.length),
        backend (knowledge_prompt (pre.get ⟨j, hj⟩) args) args.model = .ok (g (i + j))) →
      chunkJobsLoop backend args fj (pre ++ bad :: post) i st
        = .error (e, some (i + pre.length),
            { st with writes := st.writes ++ artifactsFor args fj g i pre.length }) := by
  intro pre
  induction pre with
  | nil =>
    intro i st _
    cases st with
    | mk writes errors =>
      simp only [List.nil_append, chunkJobsLoop, hmode]
      rw [show generate_prompt "knowledge" bad args = .ok (knowledge_prompt bad args) from rfl]
      simp only [hbad]
      simp [artifactsFor]
  | cons p pre ih =>
    intro i st hpre
    have h0 : backend (knowledge_prompt p args) args.model = .ok (g i) := by
      have h := hpre 0 (by simp)
      simpa using h
    simp only [List.cons_append, chunkJobsLoop, hmode]
    rw [show generate_prompt "knowledge" p args = .ok (knowledge_prompt p args) from rfl]
    simp only [h0]
    show chunkJobsLoop backend args fj (pre ++ bad :: post) (i + 1)
        { writes := st.writes ++ chunkArtifacts args fj i (g i), errors := st.errors } = _
    rw [ih (i + 1) _ ?_]
    · simp only [List.length_cons, artifactsFor]
      have hidx : i + 1 + pre.length = i + (pre.length + 1) := by omega
      rw [hidx]
      simp [List.append_assoc]
    · intro j hj
      have h := hpre (j + 1) (by simpa using Nat.succ_lt_succ hj)
      have hidx : i + (j + 1) = i + 1 + j := by omega
      rw [hidx] at h
      exact h

/-- C3 (amended): a per-chunk failure is caught at the document boundary,
not the chunk boundary. For any batch, each document's result is
unaffected by replacing any other document in the batch (sibling
documents are isolated); and for a document whose chunks succeed up to
index `pre.length` and whose backend call fails at the chunk after them,
`process_file` completes with exactly one error log naming the document
and the 1-based index of the failed chunk, with artifacts for exactly the
chunks before the failure — the remaining chunks of the same document are
skipped, and the batch is not aborted. -/
theorem process_file_failure_contained :
    (∀ backend args (fjs : List FileJob) (k : Nat) (fj2 : FileJob) (m : Nat), m ≠ k →
      (runBatch backend args (fjs.set k fj2))[m]? = (runBatch backend args fjs)[m]?)
    ∧ (∀ backend args fj (content : String) (pre : List String) (bad : String)
        (post : List String) (e : String) (g : Nat → String),
        args.mode = "knowledge" →
        fj.content = .ok content →
        chunk_text content (args.max_tokens * 4) = pre ++ bad :: post →
        (∀ j (hj : j < pre.length),
          backend (knowledge_prompt (pre.get ⟨j, hj⟩) args) args.model = .ok (g j)) →
        backend (knowledge_prompt bad args) args.model = .error e →
        process_file backend args fj
          = .ok ⟨artifactsFor args fj g 0 pre.length, [⟨fj.name, pre.length + 1, e⟩]⟩) := by
  constructor
  · intro backend args fjs k fj2 m hm
    simp only [runBatch, List.getElem?_map]
    rw [List.getElem?_set_ne (fun h => hm h.symm)]
  · intro backend args fj content pre bad post e g hmode hread hchunks hpre hbad
    have hpre0 : ∀ j (hj : j < pre.length),
        backend (knowledge_prompt (pre.get ⟨j, hj⟩) args) args.model = .ok (g (0 + j)) := by
      intro j hj
      simpa [Nat.zero_add] using hpre j hj
    have hloop := chunkJobsLoop_fail_spec backend args fj hmode bad post e g hbad
      pre 0 ⟨[], []⟩ hpre0
    simp only [process_file, tryBody, hread, hchunks, hloop]
    simp [exceptHandler]

/-- Arguments used by the concrete C3 and C5 scenarios:
knowledge mode, `max_tokens = 1`, hence chunk limit `4`. -/
def cargs : Args := ⟨"ollama", "m", "out", "knowledge", "d", "u", none, false, 1⟩

/-- Concrete document with content `"ab\ncd\nef"`, which chunks into
`["ab\ncd", "ef"]` under limit `4`. -/
def cfj : FileJob := ⟨"doc1.md", "doc1", "/abs/doc1.md", .ok "ab\ncd\nef"⟩

/-- Backend failing exactly on the prompt of the first chunk `"ab\ncd"`
and succeeding on every other prompt. -/
def cBackend : String → String → Except String String :=
  fun p _ => if p = knowledge_prompt "ab\ncd" cargs then .error "boom" else .ok "OUT"

/-- Backend failing exactly on the prompt of the second chunk `"ef"`. -/
def cBackend2 : String → String → Except String String :=
  fun p _ => if p = knowledge_prompt "ef" cargs then .error "boom" else .ok "OUT"

set_option maxRecDepth 8000 in
/-- C3 counterexample: the document `"ab\ncd\nef"` has two chunks; the
backend fails on chunk 1's prompt and would succeed on chunk 2's prompt,
yet `process_file` performs no write at all: the later chunk of the same
document is not processed and produces no artifact, contrary to the
claim. -/
theorem process_file_failure_counterexample :
    chunk_text "ab\ncd\nef" (cargs.max_tokens * 4) = ["ab\ncd", "ef"]
      ∧ cBackend (knowledge_prompt "ef" cargs) cargs.model = .ok "OUT"
      ∧ process_file cBackend cargs cfj = .ok ⟨[], [⟨"doc1.md", 1, "boom"⟩]⟩ := by
  refine ⟨by decide, by rfl, by rfl⟩

set_option maxRecDepth 8000 in
/-- Witness for `process_file_failure_contained` on the same document
with the backend failing on the second chunk: the first chunk's two
artifacts are written, the failure of chunk 2 is logged as chunk `2`. -/
theorem process_file_failure_contained_witness :
    chunk_text "ab\ncd\nef" (cargs.max_tokens * 4) = ["ab\ncd"] ++ "ef" :: []
      ∧ (runBatch cBackend2 cargs ([cfj].set 1 cfj))[0]?
          = (runBatch cBackend2 cargs [cfj])[0]?
      ∧ process_file cBackend2 cargs cfj
        = .ok ⟨artifactsFor cargs cfj (fun _ => "OUT") 0 1, [⟨"doc1.md", 2, "boom"⟩]⟩ :=
  ⟨by decide,
    process_file_failure_contained.1 cBackend2 cargs [cfj] 1 cfj 0 (by omega),
    process_file_failure_contained.2 cBackend2 cargs cfj "ab\ncd\nef"
      ["ab\ncd"] "ef" [] "boom" (fun _ => "OUT") rfl rfl (by decide)
      (by
        intro j hj
        have hj0 : j = 0 := by
          simpa using Nat.lt_one_iff.mp (by simpa using hj)
        subst hj0
        rfl)
      (by rfl)⟩

/-! ### C6: the retry policy of the backend calls

`call_openai` and `call_ollama` both carry the decorator
`@retry(stop=stop_after_attempt(3), wait=wait_random_exponential(min=5, max=20))`.
The HTTP round trip of attempt `k` is abstracted as `attempt k`
(`Except.error` models a raised exception: non-2xx status via
`raise_for_status` or a transport/timeout failure); the randomized
backoff wait between attempts affects only timing, never the value. -/

/-- The `tenacity` retry loop: run attempt `k`; on success return the
result; on failure retry while `remaining` further attempts are allowed,
else surface the failure of the last attempt. -/
def retryGo (attempt : Nat → Except String String) : Nat → Nat → Except String String
  | k, 0 => attempt k
  | k, r + 1 =>
    match attempt k with
    | .ok a => .ok a
    | .error _ => retryGo attempt (k + 1) r

/-- `call_openai(prompt, model)`: the hosted-API HTTP attempt wrapped in
the retry policy, 3 attempts total. -/
def call_openai (attempt : Nat → Except String String) : Except String String :=
  retryGo attempt 0 2

/-- `call_ollama(prompt, model)`: the local-API HTTP attempt wrapped in
the same retry policy, 3 attempts total. -/
def call_ollama (attempt : Nat → Except String String) : Except String String :=
  retryGo attempt 0 2

/-- C6: both backend variants (i) consult only attempts `0`, `1`, `2` —
at most 3 attempts ever happen; (ii) when all three attempts fail, the
failure of the final attempt is surfaced to the caller; (iii) when the
first successful attempt is attempt `k < 3`, its result is returned. -/
theorem backend_retry_policy :
    (∀ f h : Nat → Except String String, (∀ k, k < 3 → f k = h k) →
      call_openai f = call_openai h ∧ call_ollama f = call_ollama h)
    ∧ (∀ (f : Nat → Except String String) e0 e1 e2,
      f 0 = .error e0 → f 1 = .error e1 → f 2 = .error e2 →
      call_openai f = .error e2 ∧ call_ollama f = .error e2)
    ∧ (∀ (f : Nat → Except String String) (k : Nat) (a : String),
      k < 3 → f k = .ok a → (∀ j, j < k → ∃ ej, f j = .error ej) →
      call_openai f = .ok a ∧ call_ollama f = .ok a) := by
  refine ⟨?_, ?_, ?_⟩
  · intro f h hfh
    have e0 := hfh 0 (by omega)
    have e1 := hfh 1 (by omega)
    have e2 := hfh 2 (by omega)
    constructor <;>
      · show retryGo f 0 2 = retryGo h 0 2
        show (match f 0 with
          | .ok a => Except.ok a
          | .error _ => retryGo f 1 1) = (match h 0 with
          | .ok a => Except.ok a
          | .error _ => retryGo h 1 1)
        rw [e0]
        cases h 0 with
        | ok a => rfl
        | error e =>
          show (match f 1 with
            | .ok a => Except.ok a
            | .error _ => f 2) = (match h 1 with
            | .ok a => Except.ok a
            | .error _ => h 2)
          rw [e1]
          cases h 1 with
          | ok a => rfl
          | error e => show f 2 = h 2; rw [e2]
  · intro f e0 e1 e2 h0 h1 h2
    constructor <;>
      · show retryGo f 0 2 = .error e2
        show (match f 0 with
          | .ok a => Except.ok a
          | .error _ => retryGo f 1 1) = .error e2
        rw [h0]
        show (match f 1 with
          | .ok a => Except.ok a
          | .error _ => f 2) = .error e2
        rw [h1]
        show f 2 = .error e2
        exact h2
  · intro f k a hk hfk hprev
    interval_cases k
    · constructor <;>
        · show retryGo f 0 2 = .ok a
          show (match f 0 with
            | .ok a => Except.ok a
            | .error _ => retryGo f 1 1) = .ok a
          rw [hfk]
    · obtain ⟨e0, he0⟩ := hprev 0 (by omega)
      constructor <;>
        · show retryGo f 0 2 = .ok a
          show (match f 0 with
            | .ok a => Except.ok a
            | .error _ => retryGo f 1 1) = .ok a
          rw [he0]
          show (match f 1 with
            | .ok a => Except.ok a
            | .error _ => f 2) = .ok a
          rw [hfk]
    · obtain ⟨e0, he0⟩ := hprev 0 (by omega)
      obtain ⟨e1, he1⟩ := hprev 1 (by omega)
      constructor <;>
        · show retryGo f 0 2 = .ok a
          show (match f 0 with
            | .ok a => Except.ok a
            | .error _ => retryGo f 1 1) = .ok a
          rw [he0]
          show (match f 1 with
            | .ok a => Except.ok a
            | .error _ => f 2) = .ok a
          rw [he1]
          show f 2 = .ok a
          exact hfk

/-- Witness for `backend_retry_policy`, part (ii), at the attempt
function that fails every attempt `k` with message `toString k`. -/
theorem backend_retry_policy_witness :
    call_openai (fun k => .error (toString k)) = .error "2"
      ∧ call_openai (fun k => .error (toString k))
          = call_openai (fun k => if k < 3 then .error (toString k) else .ok "late")
      ∧ call_ollama (fun k => if k = 2 then .ok "yes" else .error "e") = .ok "yes" :=
  ⟨(backend_retry_policy.2.1 (fun k => .error (toString k)) "0" "1" "2"
      rfl rfl rfl).1,
   (backend_retry_policy.1 (fun k => .error (toString k))
      (fun k => if k < 3 then .error (toString k) else .ok "late")
      (fun k hk => by simp [hk])).1,
   (backend_retry_policy.2.2 (fun k => if k = 2 then .ok "yes" else .error "e") 2 "yes"
      (by omega) (by simp)
      (fun j hj => ⟨"e", by
        have hj2 : j ≠ 2 := by omega
        simp [hj2]⟩)).2⟩

/-! ### C5: the semaphore-bounded scheduler

`main` builds `sem = asyncio.Semaphore(args.concurrency)` and gathers one
`process_file(f, args, sem)` task per file; each task wraps its whole
body in `async with semaphore`. The interleaving of those tasks is a
small-step transition system: a task waits for the semaphore, then
alternates between local work (`idle`) and an in-flight backend call
(`calling`); a failing call aborts the task's remaining chunk jobs
(the document-level `except`), a successful one records a result. -/

/-- One chunk job as the scheduler sees it: owning document, 0-based
chunk index, and the (instrumented) backend outcome for its call. -/
structure CJob where
  doc : String
  idx : Nat
  succeeds : Bool
deriving DecidableEq

/-- Execution phase of one `process_file` task. `waiting`: blocked on
`async with semaphore`; `idle`: holding the semaphore between backend
calls, with the listed chunk jobs still to run; `calling`: holding the
semaphore with a backend call in flight; `done`: finished (semaphore
released). -/
inductive Phase where
  | waiting (jobs : List CJob)
  | idle (jobs : List CJob)
  | calling (j : CJob) (rest : List CJob)
  | done
deriving DecidableEq

/-- Does this phase hold the semaphore? -/
def holdsSem : Phase → Bool
  | .waiting _ => false
  | .idle _ => true
  | .calling _ _ => true
  | .done => false

/-- Is a backend call of this phase in flight? -/
def inCall : Phase → Bool
  | .waiting _ => false
  | .idle _ => false
  | .calling _ _ => true
  | .done => false

/-- Scheduler state: the phase of every task, the recorded failures
(document, 1-based chunk index as logged by the handler), and the jobs
that produced a result. -/
structure Sched where
  tasks : List Phase
  failLog : List (String × Nat)
  results : List CJob
deriving DecidableEq

/-- Number of tasks currently holding the semaphore. -/
def holders (s : Sched) : Nat := s.tasks.countP holdsSem

/-- Number of backend calls currently in flight. -/
def inFlight (s : Sched) : Nat := s.tasks.countP inCall

/-- Interleaving semantics of the gathered tasks under concurrency limit
`N`. `acquire` is enabled only while fewer than `N` tasks hold the
semaphore (`asyncio.Semaphore(N)`); a failing call (`finishErr`) logs the
failing chunk and finishes the whole task, skipping `rest` — the
document-level exception handler. -/
inductive Step (N : Nat) : Sched → Sched → Prop where
  | acquire (s : Sched) (i : Nat) (jobs : List CJob) :
      s.tasks[i]? = some (.waiting jobs) → holders s < N →
      Step N s { s with tasks := s.tasks.set i (.idle jobs) }
  | start (s : Sched) (i : Nat) (j : CJob) (rest : List CJob) :
      s.tasks[i]? = some (.idle (j :: rest)) →
      Step N s { s with tasks := s.tasks.set i (.calling j rest) }
  | finishOk (s : Sched) (i : Nat) (j : CJob) (rest : List CJob) :
      s.tasks[i]? = some (.calling j rest) → j.succeeds = true →
      Step N s { s with tasks := s.tasks.set i (.idle rest),
                        results := s.results ++ [j] }
  | finishErr (s : Sched) (i : Nat) (j : CJob) (rest : List CJob) :
      s.tasks[i]? = some (.calling j rest) → j.succeeds = false →
      Step N s { s with tasks := s.tasks.set i .done,
                        failLog := s.failLog ++ [(j.doc, j.idx + 1)] }
  | release (s : Sched) (i : Nat) :
      s.tasks[i]? = some (.idle []) →
      Step N s { s with tasks := s.tasks.set i .done }

/-- Initial state of `asyncio.gather`: every task waits to acquire. -/
def initSched (docs : List (List CJob)) : Sched := ⟨docs.map Phase.waiting, [], []⟩

theorem countP_set_balance {α : Type} (p : α → Bool) :
    ∀ (l : List α) (i : Nat) (a b : α), l[i]? = some a →
      (l.set i b).countP p + (if p a then 1 else 0)
        = l.countP p + (if p b then 1 else 0) := by
  intro l
  induction l with
  | nil => intro i a b h; simp at h
  | cons x xs ih =>
    intro i a b h
    cases i with
    | zero =>
      simp only [List.getElem?_cons_zero, Option.some.injEq] at h
      subst h
      simp only [List.set_cons_zero, List.countP_cons]
      omega
    | succ n =>
      simp only [List.getElem?_cons_succ] at h
      have hc := ih n a b h
      simp only [List.set_cons_succ, List.countP_cons]
      omega

theorem inFlight_le_holders (s : Sched) : inFlight s ≤ holders s := by
  refine List.countP_mono_left ?_
  intro ph _ h
  cases ph <;> simp_all [inCall, holdsSem]

theorem holders_le_of_step {N : Nat} {s t : Sched} (h : Step N s t)
    (hs : holders s ≤ N) : holders t ≤ N := by
  cases h with
  | acquire i jobs hget hlt =>
    have hc := countP_set_balance holdsSem s.tasks i _ (Phase.idle jobs) hget
    simp [holdsSem] at hc
    simp only [holders] at hs hlt ⊢
    omega
  | start i j rest hget =>
    have hc := countP_set_balance holdsSem s.tasks i _ (Phase.calling j rest) hget
    simp [holdsSem] at hc
    simp only [holders] at hs ⊢
    omega
  | finishOk i j rest hget _ =>
    have hc := countP_set_balance holdsSem s.tasks i _ (Phase.idle rest) hget
    simp [holdsSem] at hc
    simp only [holders] at hs ⊢
    omega
  | finishErr i j rest hget _ =>
    have hc := countP_set_balance holdsSem s.tasks i _ Phase.done hget
    simp [holdsSem] at hc
    simp only [holders] at hs ⊢
    omega
  | release i hget =>
    have hc := countP_set_balance holdsSem s.tasks i _ Phase.done hget
    simp [holdsSem] at hc
    simp only [holders] at hs ⊢
    omega

theorem holders_init (docs : List (List CJob)) : holders (initSched docs) = 0 := by
  simp only [holders, initSched]
  induction docs with
  | nil => rfl
  | cons d ds ih => simpa [List.countP_cons, holdsSem] using ih

theorem holders_le_reach {N : Nat} {docs : List (List CJob)} {s : Sched}
    (h : Relation.ReflTransGen (Step N) (initSched docs) s) : holders s ≤ N := by
  induction h with
  | refl => rw [holders_init]; omega
  | tail _ hstep ih => exact holders_le_of_step hstep ih

/-- C5 (amended): for every collection of per-document chunk-job lists,
every concurrency limit `N`, and every scheduler state reachable from the
initial gathered state, at most `N` backend calls are in flight. (The
"no chunk job is dropped" half of the original claim fails: see the
counterexample, a failing chunk ends its whole task and the following
chunks of that document get neither a result nor a recorded failure.) -/
theorem scheduler_concurrency_bound (N : Nat) (docs : List (List CJob)) (s : Sched)
    (h : Relation.ReflTransGen (Step N) (initSched docs) s) :
    inFlight s ≤ N :=
  le_trans (inFlight_le_holders s) (holders_le_reach h)

/-- Witness for `scheduler_concurrency_bound` at the initial state of a
one-document batch with limit `2`. -/
theorem scheduler_concurrency_bound_witness :
    inFlight (initSched [[⟨"a.md", 0, true⟩]]) ≤ 2 :=
  scheduler_concurrency_bound 2 [[⟨"a.md", 0, true⟩]] _ Relation.ReflTransGen.refl

/-- C5 counterexample: with limit `1` and one document holding chunk jobs
`0` (whose call fails) and `1` (whose call would succeed), a complete run
— reaching a state where every task is `done` — records the failure of
chunk 1 only; job `1` (the document's chunk 2) ends with neither a result
nor a recorded failure: a submitted job is dropped. -/
theorem scheduler_drops_chunk_job_counterexample :
    Relation.ReflTransGen (Step 1)
        (initSched [[⟨"a.md", 0, false⟩, ⟨"a.md", 1, true⟩]])
        ⟨[Phase.done], [("a.md", 1)], []⟩
      ∧ ([Phase.done].all fun ph => ph = Phase.done)
      ∧ (⟨"a.md", 1, true⟩ : CJob) ∉ ([] : List CJob)
      ∧ (("a.md", 2) : String × Nat) ∉ [(("a.md", 1) : String × Nat)] := by
  refine ⟨?_, by decide, by decide, by decide⟩
  have h1 : Step 1 (initSched [[⟨"a.md", 0, false⟩, ⟨"a.md", 1, true⟩]])
      ⟨[Phase.idle [⟨"a.md", 0, false⟩, ⟨"a.md", 1, true⟩]], [], []⟩ :=
    Step.acquire _ 0 [⟨"a.md", 0, false⟩, ⟨"a.md", 1, true⟩] rfl (by decide)
  have h2 : Step 1 ⟨[Phase.idle [⟨"a.md", 0, false⟩, ⟨"a.md", 1, true⟩]], [], []⟩
      ⟨[Phase.calling ⟨"a.md", 0, false⟩ [⟨"a.md", 1, true⟩]], [], []⟩ :=
    Step.start _ 0 ⟨"a.md", 0, false⟩ [⟨"a.md", 1, true⟩] rfl
  have h3 : Step 1 ⟨[Phase.calling ⟨"a.md", 0, false⟩ [⟨"a.md", 1, true⟩]], [], []⟩
      ⟨[Phase.done], [("a.md", 1)], []⟩ :=
    Step.finishErr _ 0 ⟨"a.md", 0, false⟩ [⟨"a.md", 1, true⟩] rfl rfl
  exact Relation.ReflTransGen.head h1
    (Relation.ReflTransGen.head h2 (Relation.ReflTransGen.head h3 Relation.ReflTransGen.refl))

end GenerateTaxonomy
